import Mathlib

/-
Verification development for the PASR repository (pasr_v1.py, pasr_v2b.py).

Paths are modelled as lists of characters (ASCII assumed for the lower
function, which suffices for the extension sets the program compares
against).  Image buffers are modelled as nested lists: rank 2 as a list of
rows, rank 3 as a list of frames.  Numpy calls are translated pointwise:
np.repeat along axis 1 duplicates each element inside a row, np.repeat
along axis 0 duplicates each row; np.flip along axis 0 reverses the outer
list.  Fallible steps of process_file return Except values.
-/

namespace PASR

/-- Python str.endswith: the second list is a suffix of the first. -/
def endsWith (s t : List Char) : Bool :=
  decide (s.reverse.take t.length = t.reverse)

/-- ASCII lower of one character, model of str.lower on the path strings
used by the program (only ASCII extensions are ever compared). -/
def charLower (c : Char) : Char :=
  if 'A' ≤ c ∧ c ≤ 'Z' then Char.ofNat (c.toNat + 32) else c

/-- Model of Python str.lower applied to a path. -/
def lowerStr (s : List Char) : List Char := s.map charLower

/-- Model of os.path.splitext (posix): split at the last dot provided that
the last dot comes after the last slash and some character strictly between
the last slash and that dot is not a dot (leading dots of the basename are
not extension separators). -/
def splitext (p : List Char) : List Char × List Char :=
  let r := p.reverse
  let T := r.takeWhile (fun c => c != '.')
  match r.dropWhile (fun c => c != '.') with
  | [] => (p, [])
  | c :: D =>
    if T.any (fun x => x == '/') then (p, [])
    else if (D.takeWhile (fun x => x != '/')).any (fun x => x != '.') then
      (D.reverse, c :: T.reverse)
    else (p, [])

/-- Model of os.path.basename (posix): the part after the last slash. -/
def basenameOf (p : List Char) : List Char :=
  (p.reverse.takeWhile (fun c => c != '/')).reverse

/-- Model of os.path.join for a directory with no trailing slash and a
relative file name, the shape used by process_directory. -/
def joinPath (dir name : List Char) : List Char := dir ++ '/' :: name

/-- Segment of a path after its last slash (the whole list when there is
no slash). -/
def lastSeg (l : List Char) : List Char :=
  (l.reverse.takeWhile (fun c => c != '/')).reverse

/-- Decimal digit character. -/
def digitChar (n : ℕ) : Char := Char.ofNat (48 + n)

/-- Fuel driven core of the decimal rendering of a natural number. -/
def natCharsCore : ℕ → ℕ → List Char → List Char
  | 0, _, acc => acc
  | fuel + 1, n, acc =>
    if n < 10 then digitChar n :: acc
    else natCharsCore fuel (n / 10) (digitChar (n % 10) :: acc)

/-- Model of Python str applied to a natural number. -/
def natChars (n : ℕ) : List Char := natCharsCore (n + 1) n []

/-- The marker that the program inserts before the extension: an
underscore, PASR, an underscore, the decimal scale, then the letter x. -/
def pasrTag (scale : ℕ) : List Char :=
  "_PASR_".toList ++ natChars scale ++ "x".toList

/-- Model of scale_image in pasr_v2b.py: np.repeat along axis 1 duplicates
each pixel of every row, then np.repeat along axis 0 duplicates each row. -/
def scale_image {α : Type} (image : List (List α)) (scale : ℕ) : List (List α) :=
  (image.map (fun row => row.flatMap (fun px => List.replicate scale px))).flatMap
    (fun row => List.replicate scale row)

/-- Model of the rank 3 branch of process_file in pasr_v2b.py: the loop
fills an array with scale_image of every frame, which on rectangular data
is a map over the frames. -/
def processStack {α : Type} (stk : List (List (List α))) (scale : ℕ) :
    List (List (List α)) :=
  stk.map (fun fr => scale_image fr scale)

/-- Model of the separate scale_image copy in pasr_v1.py (same body). -/
def scale_image_v1 {α : Type} (image : List (List α)) (scale : ℕ) : List (List α) :=
  (image.map (fun row => row.flatMap (fun px => List.replicate scale px))).flatMap
    (fun row => List.replicate scale row)

/-- Model of the frame loop of process_stack in pasr_v1.py. -/
def processStack_v1 {α : Type} (stk : List (List (List α))) (scale : ℕ) :
    List (List (List α)) :=
  stk.map (fun fr => scale_image_v1 fr scale)

/-- Decoded buffer, tagged by rank as process_file branches on ndim:
rank 2 images as a list of rows, rank 3 stacks as a list of frames, any
other rank with the rank only, since the code raises before touching the
data there. -/
inductive Buffer (α : Type) where
  | r2 (img : List (List α))
  | r3 (stk : List (List (List α)))
  | rOther (n : ℕ)
deriving DecidableEq

/-- Errors raised by process_file in pasr_v2b.py. -/
inductive PErr where
  | unsupportedInput
  | unsupportedDims
  | unsupportedOutput
deriving DecidableEq

/-- What process_file hands to the output codec, one constructor per
write branch of pasr_v2b.py. -/
inductive Written (α : Type) where
  | mrc (data : Buffer α)
  | tif (data : Buffer α) (comp : List Char) (flip : Bool)
  | jpg (img : List (List ℕ))
deriving DecidableEq

/-- Extension test of the two read branches of process_file, lines 67 to
73 of pasr_v2b.py: mrc family read via mrcfile, tif, tiff and jpg via
imread, anything else raises. -/
def inSupported (p : List Char) : Bool :=
  endsWith p ".mrc".toList || endsWith p ".mrcs".toList ||
  endsWith p ".tif".toList || endsWith p ".tiff".toList ||
  endsWith p ".jpg".toList

/-- Model of np.flip with axis 0: reverse the outer list. -/
def flip0 {α : Type} : Buffer α → Buffer α
  | .r2 img => .r2 img.reverse
  | .r3 stk => .r3 stk.reverse
  | .rOther n => .rOther n

/-- Model of the astype uint8 cast before Image.fromarray, with the
elementwise cast u8 supplied by the caller; only the rank 2 arm is
reachable from process_file since the rank 3 case returned earlier. -/
def toJpg {α : Type} : Buffer α → (α → ℕ) → List (List ℕ)
  | .r2 img, u8 => img.map (fun r => r.map u8)
  | .r3 _, _ => []
  | .rOther _, _ => []

/-- Write dispatch of process_file, lines 86 to 107 of pasr_v2b.py.
A jpg output for a rank 3 original prints an error and returns without
writing, modelled by ok none; an unrecognised extension raises. -/
def writeOutput {α : Type} (output : List Char) (origRank3 : Bool)
    (processed : Buffer α) (comp : List Char) (flip : Bool) (u8 : α → ℕ) :
    Except PErr (Option (Written α)) :=
  if endsWith output ".mrc".toList || endsWith output ".mrcs".toList then
    .ok (some (.mrc processed))
  else if endsWith output ".tif".toList || endsWith output ".tiff".toList then
    .ok (some (.tif (if flip then flip0 processed else processed) comp flip))
  else if endsWith output ".jpg".toList then
    if origRank3 then .ok none
    else .ok (some (.jpg (toJpg processed u8)))
  else .error .unsupportedOutput

/-- Model of process_file in pasr_v2b.py.  The decoded buffer stands for
what the external codec would return for the input path; the function
keeps the control flow of the source: input extension dispatch, then the
ndim check and scaling, then the write dispatch. -/
def processFile {α : Type} (input output : List Char) (decoded : Buffer α)
    (scale : ℕ) (comp : List Char) (flip : Bool) (u8 : α → ℕ) :
    Except PErr (Option (Written α)) :=
  if inSupported input then
    match decoded with
    | .r3 stk => writeOutput output true (.r3 (processStack stk scale)) comp flip u8
    | .r2 img => writeOutput output false (.r2 (scale_image img scale)) comp flip u8
    | .rOther _ => .error .unsupportedDims
  else .error .unsupportedInput

/-- Per entry output name of process_directory, lines 136 to 146 of
pasr_v2b.py, applied to the basename of the directory entry: the
keep_basename branch wins first, then force_tif, force_mrc, force_jpg,
else the default insertion of the tag before the original extension. -/
def batchOutName (keep ftif fmrc fjpg : Bool) (scale : ℕ) (name : List Char) :
    List Char :=
  let b := (splitext name).1
  let e := (splitext name).2
  if keep then b ++ e
  else if ftif then b ++ pasrTag scale ++ ".tif".toList
  else if fmrc then b ++ pasrTag scale ++ ".mrc".toList
  else if fjpg then b ++ pasrTag scale ++ ".jpg".toList
  else b ++ pasrTag scale ++ e

/-- Full output path of one directory entry: the name derived from the
basename of the entry, joined onto the output directory. -/
def batchOutFile (outDir : List Char) (keep ftif fmrc fjpg : Bool) (scale : ℕ)
    (entry : List Char) : List Char :=
  joinPath outDir (batchOutName keep ftif fmrc fjpg scale (basenameOf entry))

/-- Default output of the single file branch, lines 184 to 190 of
pasr_v2b.py: an explicit output is taken as given, otherwise the tag is
inserted before the extension unless keep_basename is set. -/
def baseOutSingle (input : List Char) (explicit : Option (List Char))
    (scale : ℕ) (keep : Bool) : List Char :=
  match explicit with
  | some o => o
  | none =>
    if keep then (splitext input).1 ++ (splitext input).2
    else (splitext input).1 ++ pasrTag scale ++ (splitext input).2

/-- Force flag application of the single file branch, lines 192 to 201 of
pasr_v2b.py: three successive independent if statements, each replacing
the current extension, so force_jpg is applied last. -/
def applyForces (o : List Char) (ftif fmrc fjpg : Bool) : List Char :=
  let o1 := if ftif then (splitext o).1 ++ ".tif".toList else o
  let o2 := if fmrc then (splitext o1).1 ++ ".mrc".toList else o1
  if fjpg then (splitext o2).1 ++ ".jpg".toList else o2

/-- Resolved output path of a single file invocation. -/
def resolveOutputSingle (input : List Char) (explicit : Option (List Char))
    (scale : ℕ) (keep ftif fmrc fjpg : Bool) : List Char :=
  applyForces (baseOutSingle input explicit scale keep) ftif fmrc fjpg

/-- Flip default of pasr_v2b.py, lines 148 and 205: true when the lowered
input path ends in the mrc family and the lowered output path ends in the
tif family. -/
def flipDefault (inp out : List Char) : Bool :=
  (endsWith (lowerStr inp) ".mrc".toList || endsWith (lowerStr inp) ".mrcs".toList)
  && (endsWith (lowerStr out) ".tif".toList || endsWith (lowerStr out) ".tiff".toList)

/-- Tri state flip resolution: an unset flag is replaced by the default
computed from the two paths, a set flag is kept. -/
def resolveFlip (flip : Option Bool) (inp out : List Char) : Bool :=
  match flip with
  | none => flipDefault inp out
  | some b => b

/-- One processing job handed to the worker pool. -/
structure Job where
  inp : List Char
  out : List Char
  scale : ℕ
  comp : List Char
  flip : Bool
deriving DecidableEq

/-- Argument building loop of process_directory, lines 134 to 149 of
pasr_v2b.py.  The loop variable flip_tif is reassigned in place the first
time it is found unset, so the option accumulator threads through the
recursion exactly as the Python variable does. -/
def buildJobs (outDir : List Char) (keep ftif fmrc fjpg : Bool) (scale : ℕ)
    (comp : List Char) : Option Bool → List (List Char) → List Job
  | _, [] => []
  | flip, f :: rest =>
    let out := batchOutFile outDir keep ftif fmrc fjpg scale f
    let fl := resolveFlip flip f out
    { inp := f, out := out, scale := scale, comp := comp, flip := fl } ::
      buildJobs outDir keep ftif fmrc fjpg scale comp (some fl) rest

/-- Model of Pool.starmap over process_file: the pool applies process_file
to every argument tuple and collects the results in order; dec stands for
the external codec environment giving the decoded buffer of each input
path. -/
def processBatch {α : Type} (jobs : List Job) (dec : List Char → Buffer α)
    (u8 : α → ℕ) : List (Except PErr (Option (Written α))) :=
  jobs.map (fun j => processFile j.inp j.out (dec j.inp) j.scale j.comp j.flip u8)

theorem length_flatMap_replicate {α : Type} (s : ℕ) :
    ∀ l : List α, (l.flatMap (fun a => List.replicate s a)).length = l.length * s
  | [] => by simp
  | a :: tl => by
    rw [List.flatMap_cons, List.length_append, List.length_replicate,
      length_flatMap_replicate s tl]
    simp [Nat.succ_mul, Nat.add_comm]

theorem getElem?_flatMap_replicate {α : Type} (s : ℕ) (hs : 0 < s) :
    ∀ (l : List α) (i : ℕ),
      (l.flatMap (fun a => List.replicate s a))[i]? = l[i / s]?
  | [], i => by simp
  | a :: tl, i => by
    rw [List.flatMap_cons]
    by_cases h : i < s
    · rw [List.getElem?_append_left (by simpa using h), Nat.div_eq_of_lt h]
      simp [h]
    · have hle : s ≤ i := Nat.le_of_not_lt h
      rw [List.getElem?_append_right (by simpa using hle), List.length_replicate]
      rw [getElem?_flatMap_replicate s hs tl (i - s)]
      have hdiv : i / s = (i - s) / s + 1 := by
        conv_lhs => rw [← Nat.sub_add_cancel hle]
        rw [Nat.add_div_right _ hs]
      rw [hdiv, List.getElem?_cons_succ]

theorem scale_image_getElem? {α : Type} (img : List (List α)) (s i j : ℕ)
    (hs : 0 < s) :
    ((scale_image img s)[i]?).bind (fun r => r[j]?) =
      (img[i / s]?).bind (fun r => r[j / s]?) := by
  unfold scale_image
  rw [getElem?_flatMap_replicate s hs, List.getElem?_map]
  rcases h : img[i / s]? with _ | row
  · rfl
  · simp [getElem?_flatMap_replicate s hs]

theorem mem_scale_image_length {α : Type} {img : List (List α)} {s w : ℕ}
    (hw : ∀ r ∈ img, r.length = w) :
    ∀ r ∈ scale_image img s, r.length = w * s := by
  intro r hr
  unfold scale_image at hr
  rcases List.mem_flatMap.mp hr with ⟨row, hrow, hmem⟩
  rcases List.mem_map.mp hrow with ⟨src, hsrc, rfl⟩
  have := List.eq_of_mem_replicate hmem
  subst this
  rw [length_flatMap_replicate, hw src hsrc]

theorem scale_image_length {α : Type} (img : List (List α)) (s : ℕ) :
    (scale_image img s).length = img.length * s := by
  unfold scale_image
  rw [length_flatMap_replicate, List.length_map]

theorem splitext_fst_append_snd (p : List Char) :
    (splitext p).1 ++ (splitext p).2 = p := by
  simp only [splitext]
  cases hD : p.reverse.dropWhile (fun c => c != '.') with
  | nil => simp
  | cons c D =>
    have hp : D.reverse ++ c :: (p.reverse.takeWhile (fun c => c != '.')).reverse = p := by
      have h := List.takeWhile_append_dropWhile (p := fun c : Char => c != '.')
        (l := p.reverse)
      rw [hD] at h
      have h2 := congrArg List.reverse h
      simpa [List.reverse_append] using h2
    by_cases h1 : (p.reverse.takeWhile (fun c => c != '.')).any (fun x => x == '/')
    · simp [h1]
    · by_cases h2 : (D.takeWhile (fun x => x != '/')).any (fun x => x != '.')
      · simp [h1, h2, hp]
      · simp [h1, h2]

theorem dropWhile_eq_cons_imp {α : Type} {p : α → Bool} :
    ∀ {l : List α} {c : α} {D : List α}, l.dropWhile p = c :: D → p c = false := by
  intro l
  induction l with
  | nil => intro c D h; simp at h
  | cons a tl ih =>
    intro c D h
    by_cases hpa : p a
    · rw [List.dropWhile_cons_of_pos hpa] at h
      exact ih h
    · rw [List.dropWhile_cons_of_neg hpa] at h
      injection h with h1 _
      rw [← h1]
      simpa using hpa

theorem splitext_eq_noSplit_of_nil {p : List Char}
    (hD : p.reverse.dropWhile (fun c => c != '.') = []) :
    splitext p = (p, []) := by
  simp only [splitext, hD]

theorem splitext_eq_noSplit_of_slash {p : List Char} {c : Char} {D : List Char}
    (hD : p.reverse.dropWhile (fun c => c != '.') = c :: D)
    (h1 : (p.reverse.takeWhile (fun c => c != '.')).any (fun x => x == '/') = true) :
    splitext p = (p, []) := by
  simp only [splitext, hD, h1]
  simp

theorem splitext_eq_split {p : List Char} {c : Char} {D : List Char}
    (hD : p.reverse.dropWhile (fun c => c != '.') = c :: D)
    (h1 : (p.reverse.takeWhile (fun c => c != '.')).any (fun x => x == '/') = false)
    (h2 : (D.takeWhile (fun x => x != '/')).any (fun x => x != '.') = true) :
    splitext p = (D.reverse, c :: (p.reverse.takeWhile (fun c => c != '.')).reverse) := by
  simp only [splitext, hD, h1, h2]
  simp

theorem splitext_eq_noSplit_allDots {p : List Char} {c : Char} {D : List Char}
    (hD : p.reverse.dropWhile (fun c => c != '.') = c :: D)
    (h1 : (p.reverse.takeWhile (fun c => c != '.')).any (fun x => x == '/') = false)
    (h2 : (D.takeWhile (fun x => x != '/')).any (fun x => x != '.') = false) :
    splitext p = (p, []) := by
  simp only [splitext, hD, h1, h2]
  simp

theorem splitext_snd_cases (p : List Char) :
    (splitext p).2 = [] ∨
    ∃ t, (splitext p).2 = '.' :: t ∧ t.all (fun c => c != '.') = true ∧
      t.all (fun c => c != '/') = true ∧
      (lastSeg (splitext p).1).any (fun c => c != '.') = true := by
  cases hD : p.reverse.dropWhile (fun c => c != '.') with
  | nil => left; rw [splitext_eq_noSplit_of_nil hD]
  | cons c D =>
    by_cases h1 : ((p.reverse.takeWhile (fun c => c != '.')).any (fun x => x == '/')) = true
    · left; rw [splitext_eq_noSplit_of_slash hD h1]
    · have h1f : ((p.reverse.takeWhile (fun c => c != '.')).any (fun x => x == '/')) = false :=
        Bool.eq_false_iff.mpr h1
      by_cases h2 : ((D.takeWhile (fun x => x != '/')).any (fun x => x != '.')) = true
      · right
        have hres := splitext_eq_split hD h1f h2
        have hc : c = '.' := by
          have hcf := dropWhile_eq_cons_imp hD
          simpa using hcf
        refine ⟨(p.reverse.takeWhile (fun c => c != '.')).reverse, ?_, ?_, ?_, ?_⟩
        · rw [hres, hc]
        · rw [List.all_reverse, List.all_eq_true]
          intro x hx
          exact List.mem_takeWhile_imp (p := fun c => c != '.') hx
        · rw [List.all_reverse, List.all_eq_true]
          intro x hx
          have hne : ¬ (x == '/') = true := by
            intro hx2
            have hane : ((p.reverse.takeWhile (fun c => c != '.')).any
                (fun x => x == '/')) = true := List.any_eq_true.mpr ⟨x, hx, hx2⟩
            rw [h1f] at hane
            exact absurd hane (by decide)
          simpa using hne
        · rw [hres]
          unfold lastSeg
          rw [List.reverse_reverse, List.any_reverse]
          exact h2
      · have h2f : ((D.takeWhile (fun x => x != '/')).any (fun x => x != '.')) = false :=
          Bool.eq_false_iff.mpr h2
        left; rw [splitext_eq_noSplit_allDots hD h1f h2f]

theorem splitext_append_ext (a t : List Char)
    (ht : t.all (fun c => c != '.') = true)
    (hts : t.all (fun c => c != '/') = true)
    (ha : (lastSeg a).any (fun c => c != '.') = true) :
    splitext (a ++ '.' :: t) = (a, '.' :: t) := by
  have hrev : (a ++ '.' :: t).reverse = t.reverse ++ '.' :: a.reverse := by
    simp [List.reverse_append]
  have htrev : ∀ x ∈ t.reverse, (x != '.') = true := by
    intro x hx
    exact List.all_eq_true.mp ht x (List.mem_reverse.mp hx)
  have hD : (a ++ '.' :: t).reverse.dropWhile (fun c => c != '.') = '.' :: a.reverse := by
    rw [hrev, List.dropWhile_append_of_pos htrev,
      List.dropWhile_cons_of_neg (by simp)]
  have hT : (a ++ '.' :: t).reverse.takeWhile (fun c => c != '.') = t.reverse := by
    rw [hrev, List.takeWhile_append_of_pos htrev,
      List.takeWhile_cons_of_neg (by simp), List.append_nil]
  have h1 : (t.reverse.any (fun x => x == '/')) = false := by
    rw [List.any_reverse]
    rw [← Bool.not_eq_true]
    intro hx
    rcases List.any_eq_true.mp hx with ⟨x, hmem, hxe⟩
    have := List.all_eq_true.mp hts x hmem
    rw [eq_of_beq hxe] at this
    simp at this
  have h2 : (a.reverse.takeWhile (fun x => x != '/')).any (fun x => x != '.') = true := by
    have : a.reverse.takeWhile (fun x => x != '/') = (lastSeg a).reverse := by
      unfold lastSeg
      rw [List.reverse_reverse]
    rw [this, List.any_reverse]
    exact ha
  simp only [splitext, hD, hT, h1, h2]
  simp

theorem splitext_append_noext (b m : List Char)
    (hb : splitext b = (b, []))
    (hmd : m.all (fun c => c != '.') = true) :
    splitext (b ++ m) = (b ++ m, []) := by
  have hmrev : ∀ x ∈ m.reverse, (x != '.') = true := by
    intro x hx
    exact List.all_eq_true.mp hmd x (List.mem_reverse.mp hx)
  have hDm : (b ++ m).reverse.dropWhile (fun c => c != '.') =
      b.reverse.dropWhile (fun c => c != '.') := by
    rw [List.reverse_append, List.dropWhile_append_of_pos hmrev]
  have hTm : (b ++ m).reverse.takeWhile (fun c => c != '.') =
      m.reverse ++ b.reverse.takeWhile (fun c => c != '.') := by
    rw [List.reverse_append, List.takeWhile_append_of_pos hmrev]
  cases hD : b.reverse.dropWhile (fun c => c != '.') with
  | nil =>
    exact splitext_eq_noSplit_of_nil (by rw [hDm, hD])
  | cons c D =>
    have hDbm : (b ++ m).reverse.dropWhile (fun c => c != '.') = c :: D := by
      rw [hDm, hD]
    by_cases h1 : ((b.reverse.takeWhile (fun c => c != '.')).any (fun x => x == '/')) = true
    · have h1m : ((b ++ m).reverse.takeWhile (fun c => c != '.')).any
          (fun x => x == '/') = true := by
        rw [hTm, List.any_append, h1, Bool.or_true]
      exact splitext_eq_noSplit_of_slash hDbm h1m
    · have h1f : ((b.reverse.takeWhile (fun c => c != '.')).any
          (fun x => x == '/')) = false := Bool.eq_false_iff.mpr h1
      have h2f : ((D.takeWhile (fun x => x != '/')).any (fun x => x != '.')) = false := by
        by_cases h2 : ((D.takeWhile (fun x => x != '/')).any (fun x => x != '.')) = true
        · have hsplit := splitext_eq_split hD h1f h2
          rw [hsplit] at hb
          exact absurd (congrArg Prod.snd hb) (by simp)
        · exact Bool.eq_false_iff.mpr h2
      by_cases hms : (m.reverse.any (fun x => x == '/')) = true
      · have h1m : ((b ++ m).reverse.takeWhile (fun c => c != '.')).any
            (fun x => x == '/') = true := by
          rw [hTm, List.any_append, hms, Bool.true_or]
        exact splitext_eq_noSplit_of_slash hDbm h1m
      · have hmsf : (m.reverse.any (fun x => x == '/')) = false :=
          Bool.eq_false_iff.mpr hms
        have h1m : ((b ++ m).reverse.takeWhile (fun c => c != '.')).any
            (fun x => x == '/') = false := by
          rw [hTm, List.any_append, hmsf, h1f]
          rfl
        exact splitext_eq_noSplit_allDots hDbm h1m h2f

theorem lastSeg_append (x y : List Char)
    (hy : y.all (fun c => c != '/') = true) :
    lastSeg (x ++ y) = lastSeg x ++ y := by
  have hyrev : ∀ a ∈ y.reverse, (a != '/') = true := by
    intro a ha
    exact List.all_eq_true.mp hy a (List.mem_reverse.mp ha)
  unfold lastSeg
  rw [List.reverse_append, List.takeWhile_append_of_pos hyrev,
    List.reverse_append, List.reverse_reverse]

theorem pasrTag_facts {s : ℕ} (hs : s = 2 ∨ s = 3 ∨ s = 4) :
    (pasrTag s).all (fun c => c != '.') = true ∧
    (pasrTag s).all (fun c => c != '/') = true ∧
    (pasrTag s).any (fun c => c != '.') = true := by
  rcases hs with rfl | rfl | rfl <;> exact ⟨by decide, by decide, by decide⟩

theorem lastSeg_any_ne_dot_of_append (x y : List Char)
    (hys : y.all (fun c => c != '/') = true)
    (hya : y.any (fun c => c != '.') = true) :
    (lastSeg (x ++ y)).any (fun c => c != '.') = true := by
  rw [lastSeg_append x y hys, List.any_append, hya, Bool.or_true]

theorem splitext_fst_mid (n tag : List Char)
    (htd : tag.all (fun c => c != '.') = true)
    (hts : tag.all (fun c => c != '/') = true)
    (hta : tag.any (fun c => c != '.') = true) :
    (splitext ((splitext n).1 ++ tag ++ (splitext n).2)).1 = (splitext n).1 ++ tag := by
  rcases splitext_snd_cases n with he | ⟨t, he, htd2, hts2, _⟩
  · have h1 : (splitext n).1 = n := by
      have hcat := splitext_fst_append_snd n
      rw [he, List.append_nil] at hcat
      exact hcat
    have hb : splitext ((splitext n).1) = ((splitext n).1, []) := by
      rw [h1]
      exact Prod.ext_iff.mpr ⟨h1, he⟩
    rw [he, List.append_nil, splitext_append_noext _ tag hb htd]
  · rw [he, splitext_append_ext ((splitext n).1 ++ tag) t htd2 hts2
      (lastSeg_any_ne_dot_of_append _ _ hts hta)]

theorem joinPath_cancel {d a b : List Char} (h : joinPath d a = joinPath d b) :
    a = b := by
  unfold joinPath at h
  have h2 := List.append_cancel_left h
  injection h2

theorem endsWith_take {o t : List Char} (h : endsWith o t = true) :
    o.reverse.take t.length = t.reverse :=
  of_decide_eq_true h

theorem take4_of_take5 {l L : List Char} (h : l.take 5 = L) :
    l.take 4 = L.take 4 := by
  rw [← h, List.take_take]
  norm_num

theorem not_family_of_jpg {o : List Char} (h : endsWith o ".jpg".toList = true) :
    endsWith o ".mrc".toList = false ∧ endsWith o ".mrcs".toList = false ∧
    endsWith o ".tif".toList = false ∧ endsWith o ".tiff".toList = false := by
  have h4 : o.reverse.take 4 = ['g', 'p', 'j', '.'] := endsWith_take h
  refine ⟨?_, ?_, ?_, ?_⟩
  · exact decide_eq_false (fun he => absurd (h4.symm.trans he) (by decide))
  · exact decide_eq_false (fun he =>
      absurd (h4.symm.trans (take4_of_take5 he)) (by decide))
  · exact decide_eq_false (fun he => absurd (h4.symm.trans he) (by decide))
  · exact decide_eq_false (fun he =>
      absurd (h4.symm.trans (take4_of_take5 he)) (by decide))

theorem not_mrc_of_tif {o : List Char} (h : endsWith o ".tif".toList = true) :
    endsWith o ".mrc".toList = false ∧ endsWith o ".mrcs".toList = false := by
  have h4 : o.reverse.take 4 = ['f', 'i', 't', '.'] := endsWith_take h
  refine ⟨?_, ?_⟩
  · exact decide_eq_false (fun he => absurd (h4.symm.trans he) (by decide))
  · exact decide_eq_false (fun he =>
      absurd (h4.symm.trans (take4_of_take5 he)) (by decide))

theorem not_mrc_of_tiff {o : List Char} (h : endsWith o ".tiff".toList = true) :
    endsWith o ".mrc".toList = false ∧ endsWith o ".mrcs".toList = false := by
  have h5 : o.reverse.take 5 = ['f', 'f', 'i', 't', '.'] := endsWith_take h
  have h4 : o.reverse.take 4 = ['f', 'f', 'i', 't'] := take4_of_take5 h5
  refine ⟨?_, ?_⟩
  · exact decide_eq_false (fun he => absurd (h4.symm.trans he) (by decide))
  · exact decide_eq_false (fun he => absurd (h5.symm.trans he) (by decide))

theorem writeOutput_tifFamily {α : Type} (out comp : List Char) (r3 flip : Bool)
    (processed : Buffer α) (u8 : α → ℕ)
    (htif : endsWith out ".tif".toList = true ∨ endsWith out ".tiff".toList = true) :
    writeOutput out r3 processed comp flip u8 =
      .ok (some (.tif (if flip then flip0 processed else processed) comp flip)) := by
  unfold writeOutput
  rcases htif with h | h
  · obtain ⟨hm1, hm2⟩ := not_mrc_of_tif h
    rw [hm1, hm2, h]
    simp
  · obtain ⟨hm1, hm2⟩ := not_mrc_of_tiff h
    rw [hm1, hm2, h]
    simp

theorem writeOutput_jpg_rank3 {α : Type} (out comp : List Char) (flip : Bool)
    (processed : Buffer α) (u8 : α → ℕ)
    (hjpg : endsWith out ".jpg".toList = true) :
    writeOutput out true processed comp flip u8 = .ok none := by
  obtain ⟨hm1, hm2, ht1, ht2⟩ := not_family_of_jpg hjpg
  unfold writeOutput
  rw [hm1, hm2, ht1, ht2, hjpg]
  simp

/-- C1: for a rank 2 buffer and a factor f drawn from the CLI choices 2, 3
and 4, scale_image multiplies both spatial dimensions exactly by f and
every f by f output block at rows y*f to y*f+f-1 and columns x*f to
x*f+f-1 is constant, equal to the source pixel at row y and column x; for
rank 3 buffers the frame count is unchanged and every frame is scaled the
same way.  The element type is the type parameter of the embedding and is
preserved by construction. -/
theorem scale_image_spec {α : Type} (f : ℕ) (hf : f = 2 ∨ f = 3 ∨ f = 4)
    (img : List (List α)) (w : ℕ) (hw : ∀ r ∈ img, r.length = w) :
    (scale_image img f).length = img.length * f ∧
    (∀ r ∈ scale_image img f, r.length = w * f) ∧
    (∀ y x dy dx : ℕ, y < img.length → x < w → dy < f → dx < f →
      ((scale_image img f)[y * f + dy]?).bind (fun r => r[x * f + dx]?) =
        (img[y]?).bind (fun r => r[x]?)) ∧
    (∀ stk : List (List (List α)),
      (processStack stk f).length = stk.length ∧
      ∀ k : ℕ, (processStack stk f)[k]? =
        (stk[k]?).map (fun fr => scale_image fr f)) := by
  have hf0 : 0 < f := by rcases hf with rfl | rfl | rfl <;> decide
  refine ⟨scale_image_length img f, mem_scale_image_length hw, ?_, ?_⟩
  · intro y x dy dx _ _ hdy hdx
    have h1 : (y * f + dy) / f = y := by
      rw [Nat.mul_comm y f, Nat.mul_add_div hf0, Nat.div_eq_of_lt hdy, Nat.add_zero]
    have h2 : (x * f + dx) / f = x := by
      rw [Nat.mul_comm x f, Nat.mul_add_div hf0, Nat.div_eq_of_lt hdx, Nat.add_zero]
    rw [scale_image_getElem? img f _ _ hf0, h1, h2]
  · intro stk
    refine ⟨by simp [processStack], ?_⟩
    intro k
    simp [processStack]

/-- Witness for scale_image_spec: a two by two image scaled by two, reading
the block pixel at row 3 and column 1 back as the source pixel at row 1 and
column 0. -/
theorem scale_image_spec_witness :
    ((scale_image ([[3, 4], [5, 6]] : List (List ℕ)) 2)[3]?).bind (fun r => r[1]?) =
      (([[3, 4], [5, 6]] : List (List ℕ))[1]?).bind (fun r => r[0]?) :=
  (scale_image_spec 2 (Or.inl rfl) [[3, 4], [5, 6]] 2
    (by decide)).2.2.1 1 0 1 1 (by decide) (by decide) (by decide) (by decide)

/-- C8: a decoded buffer whose rank is neither 2 nor 3 makes process_file
raise the invalid dimensionality error, and the result is this error for
every output path whatsoever, so the failure happens strictly before the
encode step and no write is attempted. -/
theorem processFile_rankOther {α : Type} (inp out : List Char) (n scale : ℕ)
    (comp : List Char) (flip : Bool) (u8 : α → ℕ)
    (hin : inSupported inp = true) :
    processFile inp out (Buffer.rOther n) scale comp flip u8 =
      .error PErr.unsupportedDims := by
  unfold processFile
  rw [hin]
  simp

/-- Witness for processFile_rankOther at a rank 4 buffer. -/
theorem processFile_rankOther_witness :
    processFile "a.mrc".toList "b.xyz".toList (Buffer.rOther 4 : Buffer ℕ) 2
      "lzw".toList false id = .error PErr.unsupportedDims :=
  processFile_rankOther "a.mrc".toList "b.xyz".toList 4 2 "lzw".toList false id
    (by decide)

/-- C10: with the flip flag true and a tif family output, the written rank 2
array is the scaled buffer with its rows reversed, because np.flip acts
along axis 0 whatever the rank is; the reversal is not an identity in
general, witnessed by a concrete image whose reversal differs. -/
theorem processFile_flip_rank2 {α : Type} (inp out comp : List Char) (scale : ℕ)
    (img : List (List α)) (u8 : α → ℕ)
    (hin : inSupported inp = true)
    (htif : endsWith out ".tif".toList = true ∨ endsWith out ".tiff".toList = true) :
    processFile inp out (Buffer.r2 img) scale comp true u8 =
      .ok (some (.tif (.r2 (scale_image img scale).reverse) comp true)) ∧
    ∃ img2 : List (List ℕ), ∃ s2 : ℕ,
      (scale_image img2 s2).reverse ≠ scale_image img2 s2 := by
  constructor
  · unfold processFile
    rw [hin]
    simp only [if_true]
    rw [writeOutput_tifFamily _ _ _ _ _ _ htif]
    simp [flip0]
  · exact ⟨[[0], [1]], 2, by decide⟩

/-- Witness for processFile_flip_rank2 at a concrete mrc to tif job. -/
theorem processFile_flip_rank2_witness :
    processFile "a.mrc".toList "b.tif".toList (Buffer.r2 [[(0 : ℕ), 1]]) 2
      "lzw".toList true id =
      .ok (some (.tif (.r2 (scale_image [[(0 : ℕ), 1]] 2).reverse)
        "lzw".toList true)) :=
  (processFile_flip_rank2 "a.mrc".toList "b.tif".toList "lzw".toList 2
    [[(0 : ℕ), 1]] id (by decide) (Or.inl (by decide))).1

/-- C9: on a rank 3 buffer with a tif family output, lzw compression and
flip false, version 2 process_file writes exactly the array computed by the
version 1 frame loop of process_stack: same frame structure and identical
pixel values, with the element type shared by construction. -/
theorem processFile_matches_v1 {α : Type} (inp out : List Char) (scale : ℕ)
    (stk : List (List (List α))) (u8 : α → ℕ)
    (_hs : scale = 2 ∨ scale = 3 ∨ scale = 4)
    (hin : inSupported inp = true)
    (htif : endsWith out ".tif".toList = true ∨ endsWith out ".tiff".toList = true) :
    processFile inp out (Buffer.r3 stk) scale "lzw".toList false u8 =
      .ok (some (.tif (.r3 (processStack_v1 stk scale)) "lzw".toList false)) := by
  unfold processFile
  rw [hin]
  simp only [if_true]
  rw [writeOutput_tifFamily _ _ _ _ _ _ htif]
  have hsame : processStack stk scale = processStack_v1 stk scale := rfl
  simp [hsame]

/-- Witness for processFile_matches_v1 at a one frame stack. -/
theorem processFile_matches_v1_witness :
    processFile "a.mrc".toList "b.tif".toList (Buffer.r3 [[[(7 : ℕ)]]]) 2
      "lzw".toList false id =
      .ok (some (.tif (.r3 (processStack_v1 [[[(7 : ℕ)]]] 2)) "lzw".toList false)) :=
  processFile_matches_v1 "a.mrc".toList "b.tif".toList 2 [[[(7 : ℕ)]]] id
    (Or.inl rfl) (by decide) (Or.inl (by decide))

/-- C4: a rank 3 decoded buffer with a jpg output makes process_file report
the multi frame error and return normally without writing anything, whatever
the flip and compression options; and a batch is a plain map over its jobs,
so the result list splits around any job and the sibling jobs keep their own
results. -/
theorem processFile_jpg_rank3 {α : Type} (inp out comp : List Char) (scale : ℕ)
    (stk : List (List (List α))) (flip : Bool) (u8 : α → ℕ)
    (hin : inSupported inp = true)
    (hjpg : endsWith out ".jpg".toList = true) :
    processFile inp out (Buffer.r3 stk) scale comp flip u8 = .ok none ∧
    ∀ (jobs1 jobs2 : List Job) (dec : List Char → Buffer α),
      processBatch (jobs1 ++ jobs2) dec u8 =
        processBatch jobs1 dec u8 ++ processBatch jobs2 dec u8 := by
  constructor
  · unfold processFile
    rw [hin]
    simp only [if_true]
    exact writeOutput_jpg_rank3 out comp flip _ u8 hjpg
  · intro jobs1 jobs2 dec
    unfold processBatch
    exact List.map_append _ jobs1 jobs2

/-- Witness for processFile_jpg_rank3 at a concrete stack. -/
theorem processFile_jpg_rank3_witness :
    processFile "a.mrc".toList "b.jpg".toList (Buffer.r3 [[[(1 : ℕ)]]]) 2
      "lzw".toList false id = .ok none :=
  (processFile_jpg_rank3 "a.mrc".toList "b.jpg".toList "lzw".toList 2
    [[[(1 : ℕ)]]] false id (by decide) (by decide)).1

theorem writeOutput_ne_inputError {α : Type} (out comp : List Char)
    (r3 flip : Bool) (processed : Buffer α) (u8 : α → ℕ) :
    writeOutput out r3 processed comp flip u8 ≠ .error PErr.unsupportedInput := by
  unfold writeOutput
  cases endsWith out ".mrc".toList <;>
    cases endsWith out ".mrcs".toList <;>
      cases endsWith out ".tif".toList <;>
        cases endsWith out ".tiff".toList <;>
          cases endsWith out ".jpg".toList <;>
            cases r3 <;> simp_all

theorem writeOutput_unsupportedOutput_iff {α : Type} (out comp : List Char)
    (r3 flip : Bool) (processed : Buffer α) (u8 : α → ℕ) :
    writeOutput out r3 processed comp flip u8 = .error PErr.unsupportedOutput ↔
      (endsWith out ".mrc".toList = false ∧ endsWith out ".mrcs".toList = false ∧
       endsWith out ".tif".toList = false ∧ endsWith out ".tiff".toList = false ∧
       endsWith out ".jpg".toList = false) := by
  unfold writeOutput
  cases endsWith out ".mrc".toList <;>
    cases endsWith out ".mrcs".toList <;>
      cases endsWith out ".tif".toList <;>
        cases endsWith out ".tiff".toList <;>
          cases endsWith out ".jpg".toList <;>
            cases r3 <;> simp_all

/-- C3 counterexample: the input path x.MRC matches the extension .mrc case
insensitively, yet process_file raises the unsupported input error, so the
extension dispatch is not case insensitive. -/
theorem processFile_case_counterexample :
    processFile "x.MRC".toList "y.tif".toList (Buffer.r2 [[(0 : ℕ)]]) 2
      "lzw".toList false id = .error PErr.unsupportedInput ∧
    endsWith (lowerStr "x.MRC".toList) ".mrc".toList = true := ⟨rfl, rfl⟩

/-- C3 amended: the extension dispatch of process_file is case sensitive:
the unsupported input error is raised exactly when the input path does not
end in one of the five literal lowercase extensions, and, for a supported
input path and a rank 2 buffer, the unsupported output error is raised
exactly when the output path does not end in one of them either. -/
theorem processFile_ext_dispatch {α : Type} (inp out : List Char)
    (img : List (List α)) (scale : ℕ) (comp : List Char) (flip : Bool)
    (u8 : α → ℕ) :
    (processFile inp out (Buffer.r2 img) scale comp flip u8 =
        .error PErr.unsupportedInput ↔ inSupported inp = false) ∧
    (inSupported inp = true →
      (processFile inp out (Buffer.r2 img) scale comp flip u8 =
          .error PErr.unsupportedOutput ↔
        (endsWith out ".mrc".toList = false ∧ endsWith out ".mrcs".toList = false ∧
         endsWith out ".tif".toList = false ∧ endsWith out ".tiff".toList = false ∧
         endsWith out ".jpg".toList = false))) := by
  constructor
  · cases hin : inSupported inp with
    | false =>
      unfold processFile
      rw [hin]
      simp
    | true =>
      unfold processFile
      rw [hin]
      simp only [if_true]
      constructor
      · intro h
        exact absurd h (writeOutput_ne_inputError out comp false flip _ u8)
      · intro h
        exact absurd h (by decide)
  · intro hin
    unfold processFile
    rw [hin]
    simp only [if_true]
    exact writeOutput_unsupportedOutput_iff out comp false flip _ u8

/-- Witness for processFile_ext_dispatch: a supported input with an
unrecognised output extension raises the unsupported output error. -/
theorem processFile_ext_dispatch_witness :
    processFile "a.mrc".toList "b.xyz".toList (Buffer.r2 [[(0 : ℕ)]]) 2
      "lzw".toList false id = .error PErr.unsupportedOutput :=
  ((processFile_ext_dispatch "a.mrc".toList "b.xyz".toList [[(0 : ℕ)]] 2
    "lzw".toList false id).2 (by decide)).mpr
    ⟨by decide, by decide, by decide, by decide, by decide⟩

theorem buildJobs_flip_const (outDir : List Char) (keep ftif fmrc fjpg : Bool)
    (scale : ℕ) (comp : List Char) (b : Bool) :
    ∀ (files : List (List Char)) (j : Job),
      j ∈ buildJobs outDir keep ftif fmrc fjpg scale comp (some b) files →
      j.flip = b := by
  intro files
  induction files with
  | nil => intro j hj; simp [buildJobs] at hj
  | cons f rest ih =>
    intro j hj
    simp only [buildJobs, resolveFlip, List.mem_cons] at hj
    rcases hj with rfl | hj
    · rfl
    · exact ih j hj

/-- C2 counterexample: in a batch whose first entry resolves the unset flip
flag to false, a later mrc entry with a tif output also receives false,
although resolving from its own extensions would give true, so the batch
resolution is not performed per entry. -/
theorem buildJobs_sticky_counterexample :
    ((buildJobs "out".toList false true false false 2 "lzw".toList none
        ["in/a.tif".toList, "in/b.mrc".toList]).map Job.flip = [false, false]) ∧
    flipDefault "in/b.mrc".toList
      (batchOutFile "out".toList false true false false 2 "in/b.mrc".toList) =
      true := ⟨rfl, rfl⟩

/-- C2 amended: for a single job the unset flip flag resolves to true
exactly when the lowered input path ends in the mrc family and the lowered
output path ends in the tif family; in batch mode the flag is resolved once,
at the first entry, from that entry and its derived output, and the same
value is then reused for every entry of the batch. -/
theorem resolveFlip_spec :
    (∀ inp out : List Char, resolveFlip none inp out = true ↔
      ((endsWith (lowerStr inp) ".mrc".toList = true ∨
        endsWith (lowerStr inp) ".mrcs".toList = true) ∧
       (endsWith (lowerStr out) ".tif".toList = true ∨
        endsWith (lowerStr out) ".tiff".toList = true))) ∧
    (∀ (outDir : List Char) (keep ftif fmrc fjpg : Bool) (scale : ℕ)
        (comp : List Char) (f0 : List Char) (rest : List (List Char)) (j : Job),
      j ∈ buildJobs outDir keep ftif fmrc fjpg scale comp none (f0 :: rest) →
      j.flip = flipDefault f0 (batchOutFile outDir keep ftif fmrc fjpg scale f0)) := by
  constructor
  · intro inp out
    simp [resolveFlip, flipDefault]
  · intro outDir keep ftif fmrc fjpg scale comp f0 rest j hj
    simp only [buildJobs, resolveFlip, List.mem_cons] at hj
    rcases hj with rfl | hj
    · rfl
    · exact buildJobs_flip_const outDir keep ftif fmrc fjpg scale comp _ rest j hj

/-- Witness for resolveFlip_spec: the unset flag resolves to true for an mrc
input with a tif output. -/
theorem resolveFlip_spec_witness :
    resolveFlip none "a.mrc".toList "b.tif".toList = true :=
  (resolveFlip_spec.1 "a.mrc".toList "b.tif".toList).mpr
    ⟨Or.inl (by decide), Or.inl (by decide)⟩

/-- C5 counterexample: with force_tif set, the two distinct directory
entries a.tif and a.mrc collide on the same derived output path, so distinct
input filenames do not guarantee distinct outputs. -/
theorem batchOutFile_collision_counterexample :
    batchOutFile "out".toList false true false false 2 "in/a.tif".toList =
      batchOutFile "out".toList false true false false 2 "in/a.mrc".toList ∧
    "in/a.tif".toList ≠ "in/a.mrc".toList := ⟨rfl, by decide⟩

/-- C5 amended: the derived output paths of process_directory are pairwise
distinct whenever the stems of the input basenames, that is the basenames
with the extension removed, are pairwise distinct, for every combination of
keep_basename, the force flags and the scale. -/
theorem batchOutFile_injective_on_stems (keep ftif fmrc fjpg : Bool)
    (scale : ℕ) (hs : scale = 2 ∨ scale = 3 ∨ scale = 4)
    (outDir f1 f2 : List Char)
    (hstem : (splitext (basenameOf f1)).1 ≠ (splitext (basenameOf f2)).1) :
    batchOutFile outDir keep ftif fmrc fjpg scale f1 ≠
      batchOutFile outDir keep ftif fmrc fjpg scale f2 := by
  obtain ⟨htd, hts, hta⟩ := pasrTag_facts hs
  intro heq
  apply hstem
  unfold batchOutFile at heq
  have heqn := joinPath_cancel heq
  cases keep with
  | true =>
    have e : ∀ nm, batchOutName true ftif fmrc fjpg scale nm =
        (splitext nm).1 ++ (splitext nm).2 := fun nm => rfl
    rw [e, e, splitext_fst_append_snd, splitext_fst_append_snd] at heqn
    rw [heqn]
  | false =>
    cases ftif with
    | true =>
      have e : ∀ nm, batchOutName false true fmrc fjpg scale nm =
          (splitext nm).1 ++ pasrTag scale ++ ".tif".toList := fun nm => rfl
      rw [e, e] at heqn
      exact List.append_cancel_right (List.append_cancel_right heqn)
    | false =>
      cases fmrc with
      | true =>
        have e : ∀ nm, batchOutName false false true fjpg scale nm =
            (splitext nm).1 ++ pasrTag scale ++ ".mrc".toList := fun nm => rfl
        rw [e, e] at heqn
        exact List.append_cancel_right (List.append_cancel_right heqn)
      | false =>
        cases fjpg with
        | true =>
          have e : ∀ nm, batchOutName false false false true scale nm =
              (splitext nm).1 ++ pasrTag scale ++ ".jpg".toList := fun nm => rfl
          rw [e, e] at heqn
          exact List.append_cancel_right (List.append_cancel_right heqn)
        | false =>
          have e : ∀ nm, batchOutName false false false false scale nm =
              (splitext nm).1 ++ pasrTag scale ++ (splitext nm).2 := fun nm => rfl
          rw [e, e] at heqn
          have hmid := congrArg (fun l => (splitext l).1) heqn
          simp only at hmid
          rw [splitext_fst_mid (basenameOf f1) (pasrTag scale) htd hts hta,
            splitext_fst_mid (basenameOf f2) (pasrTag scale) htd hts hta] at hmid
          exact List.append_cancel_right hmid

/-- Witness for batchOutFile_injective_on_stems at two entries with
distinct stems. -/
theorem batchOutFile_injective_witness :
    batchOutFile "out".toList false false false false 2 "in/a.tif".toList ≠
      batchOutFile "out".toList false false false false 2 "in/b.tif".toList :=
  batchOutFile_injective_on_stems false false false false 2 (Or.inl rfl)
    "out".toList "in/a.tif".toList "in/b.tif".toList (by decide)

theorem splitext_snd_join_tag {outDir nm tag : List Char} {t : List Char}
    (hts : tag.all (fun c => c != '/') = true)
    (hta : tag.any (fun c => c != '.') = true)
    (htd : t.all (fun c => c != '.') = true)
    (hts2 : t.all (fun c => c != '/') = true) :
    (splitext (joinPath outDir (nm ++ tag ++ ('.' :: t)))).2 = '.' :: t := by
  have hassoc : joinPath outDir (nm ++ tag ++ ('.' :: t)) =
      ((outDir ++ '/' :: nm) ++ tag) ++ ('.' :: t) := by
    unfold joinPath
    simp [List.append_assoc]
  rw [hassoc, splitext_append_ext _ t htd hts2
    (lastSeg_any_ne_dot_of_append _ _ hts hta)]

/-- C6 counterexample: in batch mode with keep_basename and force_tif both
set, the entry a.mrc keeps the extension .mrc, so the forced extension is
not applied there, against the claim that it applies even with
keep_basename set. -/
theorem batch_force_counterexample :
    (splitext (batchOutFile "out".toList true true false false 2
        "in/a.mrc".toList)).2 = ".mrc".toList ∧
    ".mrc".toList ≠ ".tif".toList := ⟨rfl, by decide⟩

/-- C6 amended: in single file mode the three force flags each replace the
current output extension and are applied in order, so with several flags set
force_jpg wins, provided the stem of the base output has some character
other than a dot; in batch mode the force flags apply only when
keep_basename is unset, and force_tif takes priority over force_mrc, which
takes priority over force_jpg. -/
theorem forcedExtension_spec (o : List Char) (ftif fmrc fjpg : Bool)
    (scale : ℕ) (hs : scale = 2 ∨ scale = 3 ∨ scale = 4)
    (ha : (lastSeg (splitext o).1).any (fun c => c != '.') = true) :
    (fjpg = true →
      (splitext (applyForces o ftif fmrc fjpg)).2 = ".jpg".toList) ∧
    (fjpg = false → fmrc = true →
      (splitext (applyForces o ftif fmrc fjpg)).2 = ".mrc".toList) ∧
    (fjpg = false → fmrc = false → ftif = true →
      (splitext (applyForces o ftif fmrc fjpg)).2 = ".tif".toList) ∧
    (∀ outDir entry : List Char,
      (splitext (batchOutFile outDir false true fmrc fjpg scale entry)).2 =
        ".tif".toList ∧
      (splitext (batchOutFile outDir false false true fjpg scale entry)).2 =
        ".mrc".toList ∧
      (splitext (batchOutFile outDir false false false true scale entry)).2 =
        ".jpg".toList) := by
  obtain ⟨htagd, htags, htaga⟩ := pasrTag_facts hs
  have htifE : splitext ((splitext o).1 ++ ".tif".toList) =
      ((splitext o).1, ".tif".toList) :=
    splitext_append_ext _ ['t', 'i', 'f'] (by decide) (by decide) ha
  have hmrcE : splitext ((splitext o).1 ++ ".mrc".toList) =
      ((splitext o).1, ".mrc".toList) :=
    splitext_append_ext _ ['m', 'r', 'c'] (by decide) (by decide) ha
  have hjpgE : splitext ((splitext o).1 ++ ".jpg".toList) =
      ((splitext o).1, ".jpg".toList) :=
    splitext_append_ext _ ['j', 'p', 'g'] (by decide) (by decide) ha
  refine ⟨?_, ?_, ?_, ?_⟩
  · intro hj
    subst hj
    cases ftif <;> cases fmrc
    · rw [show applyForces o false false true =
          (splitext o).1 ++ ".jpg".toList from rfl, hjpgE]
    · rw [show applyForces o false true true =
          (splitext ((splitext o).1 ++ ".mrc".toList)).1 ++ ".jpg".toList from rfl,
        hmrcE]
      rw [show (((splitext o).1, ".mrc".toList)).1 = (splitext o).1 from rfl, hjpgE]
    · rw [show applyForces o true false true =
          (splitext ((splitext o).1 ++ ".tif".toList)).1 ++ ".jpg".toList from rfl,
        htifE]
      rw [show (((splitext o).1, ".tif".toList)).1 = (splitext o).1 from rfl, hjpgE]
    · rw [show applyForces o true true true =
          (splitext ((splitext ((splitext o).1 ++ ".tif".toList)).1 ++
            ".mrc".toList)).1 ++ ".jpg".toList from rfl, htifE]
      rw [show (((splitext o).1, ".tif".toList)).1 = (splitext o).1 from rfl, hmrcE]
      rw [show (((splitext o).1, ".mrc".toList)).1 = (splitext o).1 from rfl, hjpgE]
  · intro hj hm
    subst hm
    cases fjpg
    · cases ftif
      · rw [show applyForces o false true false =
            (splitext o).1 ++ ".mrc".toList from rfl, hmrcE]
      · rw [show applyForces o true true false =
            (splitext ((splitext o).1 ++ ".tif".toList)).1 ++ ".mrc".toList from rfl,
          htifE]
        rw [show (((splitext o).1, ".tif".toList)).1 = (splitext o).1 from rfl, hmrcE]
    · exact absurd hj (by decide)
  · intro hj hm ht
    subst ht
    cases fjpg
    · cases fmrc
      · rw [show applyForces o true false false =
            (splitext o).1 ++ ".tif".toList from rfl, htifE]
      · exact absurd hm (by decide)
    · exact absurd hj (by decide)
  · intro outDir entry
    refine ⟨?_, ?_, ?_⟩
    · rw [show batchOutFile outDir false true fmrc fjpg scale entry =
          joinPath outDir ((splitext (basenameOf entry)).1 ++ pasrTag scale ++
            ".tif".toList) from rfl]
      exact splitext_snd_join_tag htags htaga (by decide) (by decide)
    · rw [show batchOutFile outDir false false true fjpg scale entry =
          joinPath outDir ((splitext (basenameOf entry)).1 ++ pasrTag scale ++
            ".mrc".toList) from rfl]
      exact splitext_snd_join_tag htags htaga (by decide) (by decide)
    · rw [show batchOutFile outDir false false false true scale entry =
          joinPath outDir ((splitext (basenameOf entry)).1 ++ pasrTag scale ++
            ".jpg".toList) from rfl]
      exact splitext_snd_join_tag htags htaga (by decide) (by decide)

/-- Witness for forcedExtension_spec: force_jpg on a plain tif input. -/
theorem forcedExtension_spec_witness :
    (splitext (applyForces "frame.tif".toList false false true)).2 =
      ".jpg".toList :=
  (forcedExtension_spec "frame.tif".toList false false true 2 (Or.inl rfl)
    (by decide)).1 rfl

/-- C7: with no explicit output, keep_basename keeps the input path
unchanged, and otherwise the tag made of the scale is inserted between the
stem and the extension; the concrete example frame.tif with scale 3 gives
frame_PASR_3x.tif. -/
theorem resolveOutputSingle_default (input : List Char) (scale : ℕ) :
    resolveOutputSingle input none scale true false false false = input ∧
    resolveOutputSingle input none scale false false false false =
      (splitext input).1 ++ pasrTag scale ++ (splitext input).2 ∧
    resolveOutputSingle "frame.tif".toList none 3 false false false false =
      "frame_PASR_3x.tif".toList := by
  refine ⟨?_, rfl, rfl⟩
  show (splitext input).1 ++ (splitext input).2 = input
  exact splitext_fst_append_snd input

end PASR
